import Mathlib

set_option maxRecDepth 8192

/-!
Verification of the perceptual image fingerprinting core of the
metadata-extractor repository.

The repository itself delegates the fingerprint computation to the external
blockhash library: `src/services/mediaService.ts` loads an image into a
canvas, extracts its RGBA pixel data, and calls `blockhash(imageData, 16, 1)`
inside a try/catch that converts every failure into the empty string.  The
fingerprint algorithm and the similarity comparator are therefore specified
(in the design document) rather than present in the source tree; they are
modelled here from the spec, while `getImageData` and `generatePerceptualHash`
are embedded directly from `src/services/mediaService.ts`.
-/

/-- One RGBA pixel: four 8-bit channels (values are kept as naturals). -/
structure Pixel where
  r : Nat
  g : Nat
  b : Nat
  a : Nat
deriving DecidableEq

/-- A decoded pixel buffer: width `W`, height `H`, and `W*H` pixels in
row-major order.  This is the `ImageData`/`PixelBuffer` shape of the spec. -/
structure PixelBuffer where
  width : Nat
  height : Nat
  data : List Pixel
deriving DecidableEq

/-- Modelled from the spec: luminance of a pixel is the unweighted average of
its red, green and blue channels; the alpha channel is ignored. -/
def lum (p : Pixel) : ℚ := ((p.r : ℚ) + (p.g : ℚ) + (p.b : ℚ)) / 3

/-- Pixel at column `x`, row `y` of a buffer (row-major indexing). -/
def pixelAt (buf : PixelBuffer) (x y : Nat) : Pixel :=
  buf.data.getD (y * buf.width + x) ⟨0, 0, 0, 0⟩

/-- Modelled from the spec: block boundary by linear interpolation, block `i`
of a dimension of `total` pixels split into `n` blocks starts at
`floor(i*total/n)`. -/
def blockStart (i total n : Nat) : Nat := i * total / n

/-- Modelled from the spec: mean luminance of the rectangular block at grid
row `row` and grid column `col` of the `n × n` partition of the buffer. -/
def blockIntensity (buf : PixelBuffer) (n row col : Nat) : ℚ :=
  let x0 := blockStart col buf.width n
  let x1 := blockStart (col + 1) buf.width n
  let y0 := blockStart row buf.height n
  let y1 := blockStart (row + 1) buf.height n
  let cnt := (x1 - x0) * (y1 - y0)
  let s := ((List.range (y1 - y0)).map (fun dy =>
    ((List.range (x1 - x0)).map (fun dx =>
      lum (pixelAt buf (x0 + dx) (y0 + dy)))).sum)).sum
  s / (cnt : ℚ)

/-- Modelled from the spec: the `n*n` block intensities in row-major order
(block `(0,0)` first, then `(0,1)`, ...). -/
def blockIntensities (buf : PixelBuffer) (n : Nat) : List ℚ :=
  (List.range (n * n)).map (fun k => blockIntensity buf n (k / n) (k % n))

/-- Modelled from the spec: the median of a list of rationals, via sorting;
for an even count it is the average of the two middle elements. -/
def median (l : List ℚ) : ℚ :=
  let s := l.insertionSort (· ≤ ·)
  if l.length = 0 then 0
  else if l.length % 2 = 1 then s.getD (l.length / 2) 0
  else (s.getD (l.length / 2 - 1) 0 + s.getD (l.length / 2) 0) / 2

/-- Modelled from the spec: one bit per block in row-major order, `1` exactly
when the block intensity is strictly greater than the median of all block
intensities (ties resolve to `0`). -/
def fingerprintBits (buf : PixelBuffer) (n : Nat) : List Bool :=
  let ints := blockIntensities buf n
  let m := median ints
  ints.map (fun v => decide (m < v))

/-- Error taxonomy of the spec's §7. -/
inductive FingerprintError where
  | invalidImage
  | imageTooSmall
  | incompatibleFingerprint
  | malformedFingerprint
deriving DecidableEq

/-- A fingerprint: the grid dimension it was generated with, plus its
`N*N` bits in row-major block order. -/
structure Fingerprint where
  gridSize : Nat
  bits : List Bool
deriving DecidableEq

/-- Modelled from the spec: `generateFingerprint(pixels, gridSize)`.
Validation first (empty or zero-dimension buffers fail with
`InvalidImageError`; a grid size below 2 or dimensions smaller than the grid
fail with `ImageTooSmallError`), then the block-average hash. -/
def generateFingerprint (buf : PixelBuffer) (gridSize : Nat) :
    Except FingerprintError Fingerprint :=
  if buf.width = 0 ∨ buf.height = 0 ∨ buf.data = [] then
    .error .invalidImage
  else if gridSize < 2 ∨ buf.width < gridSize ∨ buf.height < gridSize then
    .error .imageTooSmall
  else
    .ok ⟨gridSize, fingerprintBits buf gridSize⟩

/-- Number of hex characters of a serialized fingerprint: `ceil(N*N/4)`. -/
def hexLength (n : Nat) : Nat := (n * n + 3) / 4

/-- The sixteen lowercase hexadecimal digit characters. -/
def hexDigits : List Char := "0123456789abcdef".toList

/-- Lowercase hex digit for a nibble value. -/
def hexDigit (n : Nat) : Char :=
  if n < 10 then Char.ofNat (48 + n) else Char.ofNat (87 + n)

/-- Value of a nibble given its four bits, most significant first. -/
def nibbleVal (b3 b2 b1 b0 : Bool) : Nat :=
  8 * b3.toNat + 4 * b2.toNat + 2 * b1.toNat + b0.toNat

/-- Render a bit string, most significant bit first, as lowercase hex
characters, one per group of four bits. -/
def hexCharsOfBits : List Bool → List Char
  | b3 :: b2 :: b1 :: b0 :: rest =>
      hexDigit (nibbleVal b3 b2 b1 b0) :: hexCharsOfBits rest
  | [] => []
  | [b0] => [hexDigit b0.toNat]
  | [b1, b0] => [hexDigit (2 * b1.toNat + b0.toNat)]
  | [b2, b1, b0] => [hexDigit (4 * b2.toNat + 2 * b1.toNat + b0.toNat)]

/-- Modelled from the spec: serialized form of a fingerprint, a lowercase hex
string of `ceil(N*N/4)` characters, most significant bit first, left-padded
with zero bits to the fixed expected length. -/
def fingerprintHex (f : Fingerprint) : String :=
  String.mk (hexCharsOfBits
    (List.replicate (4 * hexLength f.gridSize - f.bits.length) false ++ f.bits))

/-- The result record of the similarity comparator. -/
structure SimilarityResult where
  distanceBits : Nat
  similarity : ℚ
  isDuplicate : Bool
deriving DecidableEq

/-- Hamming distance between two bit strings: the count of positions where
they differ. -/
def hammingDistance (x y : List Bool) : Nat :=
  (List.zipWith (fun u v => u != v) x y).count true

namespace Fingerprint

/-- Modelled from the spec: `compare(a, b, threshold)`.  Validates that the
two fingerprints share the same grid dimension (otherwise
`IncompatibleFingerprintError`), then computes the Hamming distance, the
normalized similarity `1 - distance/(N*N)`, and the duplicate flag
`distance <= threshold * N * N`. -/
def compare (a b : Fingerprint) (threshold : ℚ) :
    Except FingerprintError SimilarityResult :=
  if a.gridSize = b.gridSize then
    let total := a.gridSize * a.gridSize
    let d := hammingDistance a.bits b.bits
    .ok ⟨d, 1 - (d : ℚ) / (total : ℚ), decide ((d : ℚ) ≤ threshold * (total : ℚ))⟩
  else
    .error .incompatibleFingerprint

end Fingerprint

/-- The possible outcomes of loading an image into a canvas, the environment
of `getImageData` in `src/services/mediaService.ts`: the image loads and
yields pixel data, or the image fails to load (`image.onerror`), or the 2d
canvas context cannot be obtained. -/
inductive LoadOutcome where
  | success (img : PixelBuffer)
  | loadFailed
  | contextFailed
deriving DecidableEq

/-- Embedded from `src/services/mediaService.ts` (`getImageData`): resolves
with the image's pixel data on load, rejects with an error when the image
fails to load or when the canvas context cannot be obtained. -/
def getImageData : LoadOutcome → Except String PixelBuffer
  | .success img => .ok img
  | .loadFailed => .error "image failed to load"
  | .contextFailed => .error "Could not get canvas context"

/-- Modelled from the spec: the external blockhash library call
`blockhash(imageData, bits, 1)` used by `generatePerceptualHash`; the library
source is not part of the repository, so it is modelled as the spec's
block-average hash rendered as a hex string. -/
def blockhashSpec (img : PixelBuffer) (bits : Nat) :
    Except FingerprintError String :=
  (generateFingerprint img bits).map fingerprintHex

/-- Embedded from `src/services/mediaService.ts` (`generatePerceptualHash`):
awaits `getImageData`, calls `blockhash(imageData, 16, 1)`, and catches every
error, returning the empty string instead of propagating it. -/
def generatePerceptualHash (o : LoadOutcome) : String :=
  match getImageData o with
  | .error _ => ""
  | .ok img =>
    match blockhashSpec img 16 with
    | .error _ => ""
    | .ok h => h

/-- A buffer filled with `w * h` copies of a single color. -/
def uniformBuffer (w h : Nat) (c : Pixel) : PixelBuffer :=
  ⟨w, h, List.replicate (w * h) c⟩

/-- Replace the alpha channel of the pixel at (row-major) index `k`, keeping
its red, green and blue channels. -/
def setAlphaAt (buf : PixelBuffer) (k al : Nat) : PixelBuffer :=
  ⟨buf.width, buf.height,
    buf.data.set k
      (let p := buf.data.getD k ⟨0, 0, 0, 0⟩
       ⟨p.r, p.g, p.b, al⟩)⟩

/-- A successful generation records the requested grid size in the
fingerprint. -/
lemma generateFingerprint_gridSize {buf : PixelBuffer} {n : Nat} {f : Fingerprint}
    (h : generateFingerprint buf n = .ok f) : f.gridSize = n := by
  unfold generateFingerprint at h
  split at h
  · exact absurd h (by simp)
  · split at h
    · exact absurd h (by simp)
    · injection h with h'
      rw [← h']

/-- Auxiliary: the Hamming distance of a bit string to itself is zero. -/
lemma count_true_zipWith_bne_self (l : List Bool) :
    (List.zipWith (fun u v => u != v) l l).count true = 0 := by
  induction l with
  | nil => rfl
  | cons x xs ih => cases x <;> simpa [List.count_cons] using ih

/-- C5: fingerprint generation validates its input before any computation: an
empty or zero-dimension pixel buffer fails with `InvalidImageError`, and for a
non-degenerate buffer a grid size below 2, or a width or height smaller than
the grid size, fails with `ImageTooSmallError`. -/
theorem generateFingerprint_validation (buf : PixelBuffer) (n : Nat) :
    ((buf.width = 0 ∨ buf.height = 0 ∨ buf.data = []) →
      generateFingerprint buf n = .error .invalidImage) ∧
    (buf.width ≠ 0 → buf.height ≠ 0 → buf.data ≠ [] →
      (n < 2 ∨ buf.width < n ∨ buf.height < n) →
      generateFingerprint buf n = .error .imageTooSmall) := by
  constructor
  · intro h
    unfold generateFingerprint
    rw [if_pos h]
  · intro h1 h2 h3 h4
    unfold generateFingerprint
    rw [if_neg (by push_neg; exact ⟨h1, h2, h3⟩), if_pos h4]

/-- Witness for C5 at concrete inputs. -/
theorem generateFingerprint_validation_witness :
    generateFingerprint ⟨0, 0, []⟩ 16 = .error .invalidImage ∧
    generateFingerprint ⟨4, 4, List.replicate 16 ⟨0, 0, 0, 0⟩⟩ 16 =
      .error .imageTooSmall := by
  constructor
  · exact (generateFingerprint_validation ⟨0, 0, []⟩ 16).1 (Or.inl rfl)
  · exact (generateFingerprint_validation ⟨4, 4, List.replicate 16 ⟨0, 0, 0, 0⟩⟩ 16).2
      (by decide) (by decide) (by decide) (Or.inr (Or.inl (by decide)))

/-- C7: fingerprint generation is deterministic: two invocations on the same
pixel buffer and grid size yield identical output (it is a pure function of
its arguments, with no hidden state). -/
theorem generateFingerprint_deterministic (buf : PixelBuffer) (n : Nat) :
    generateFingerprint buf n = generateFingerprint buf n := rfl

/-- C8: comparing a fingerprint with itself succeeds with Hamming distance 0
and normalized similarity exactly 1. -/
theorem compare_self (f : Fingerprint) (t : ℚ) :
    ∃ r, Fingerprint.compare f f t = .ok r ∧
      r.distanceBits = 0 ∧ r.similarity = 1 := by
  have hd : hammingDistance f.bits f.bits = 0 := count_true_zipWith_bne_self f.bits
  unfold Fingerprint.compare
  rw [if_pos rfl]
  refine ⟨_, rfl, hd, ?_⟩
  show 1 - (hammingDistance f.bits f.bits : ℚ) / ((f.gridSize * f.gridSize : Nat) : ℚ) = 1
  rw [hd]
  simp

/-- C1 counterexample: on a failing input (the image fails to load), the
repository's `generatePerceptualHash` does not surface the error to the
caller; it returns the empty string as a substitute value. -/
theorem generatePerceptualHash_loadFailure_returns_empty :
    getImageData LoadOutcome.loadFailed = Except.error "image failed to load" ∧
    generatePerceptualHash LoadOutcome.loadFailed = "" := ⟨rfl, rfl⟩

/-- C1 (amended): on every input on which fingerprint generation fails (image
load error, missing canvas context, or hashing error), `generatePerceptualHash`
catches the error and returns the empty string; no error reaches the caller. -/
theorem generatePerceptualHash_swallows_errors (o : LoadOutcome)
    (h : (∃ e, getImageData o = .error e) ∨
      (∃ img e, getImageData o = .ok img ∧ blockhashSpec img 16 = .error e)) :
    generatePerceptualHash o = "" := by
  unfold generatePerceptualHash
  rcases h with ⟨e, he⟩ | ⟨img, e, h1, h2⟩
  · rw [he]
  · rw [h1]
    show (match blockhashSpec img 16 with
      | .error _ => "" | .ok h => h) = ""
    rw [h2]

/-- Witness for the amended C1 at a concrete failing input. -/
theorem generatePerceptualHash_swallows_errors_witness :
    generatePerceptualHash LoadOutcome.loadFailed = "" :=
  generatePerceptualHash_swallows_errors LoadOutcome.loadFailed
    (Or.inl ⟨"image failed to load", rfl⟩)

/-- C10: `generatePerceptualHash` always resolves to a string and never
propagates an error: on load failure, missing canvas context, or a hashing
error it resolves to the empty string, and on success it resolves to the
computed hash. -/
theorem generatePerceptualHash_resolves (o : LoadOutcome) :
    (∃ s, generatePerceptualHash o = s) ∧
    (o = LoadOutcome.loadFailed ∨ o = LoadOutcome.contextFailed →
      generatePerceptualHash o = "") ∧
    (∀ img e, o = LoadOutcome.success img → blockhashSpec img 16 = .error e →
      generatePerceptualHash o = "") ∧
    (∀ img hh, o = LoadOutcome.success img → blockhashSpec img 16 = .ok hh →
      generatePerceptualHash o = hh) := by
  refine ⟨⟨_, rfl⟩, ?_, ?_, ?_⟩
  · rintro (rfl | rfl) <;> rfl
  · rintro img e rfl h2
    unfold generatePerceptualHash
    show (match blockhashSpec img 16 with
      | .error _ => "" | .ok h => h) = ""
    rw [h2]
  · rintro img hh rfl h2
    unfold generatePerceptualHash
    show (match blockhashSpec img 16 with
      | .error _ => "" | .ok h => h) = hh
    rw [h2]

/-- Witness for C10 at concrete inputs: a failing load and a degenerate image
whose hashing fails both resolve to the empty string. -/
theorem generatePerceptualHash_resolves_witness :
    generatePerceptualHash (LoadOutcome.success ⟨0, 0, []⟩) = "" ∧
    generatePerceptualHash LoadOutcome.loadFailed = "" :=
  ⟨(generatePerceptualHash_resolves (LoadOutcome.success ⟨0, 0, []⟩)).2.2.1
      ⟨0, 0, []⟩ FingerprintError.invalidImage rfl rfl,
   (generatePerceptualHash_resolves LoadOutcome.loadFailed).2.1 (Or.inl rfl)⟩

/-- Auxiliary: division distributes sub-additively over addition. -/
lemma div_add_div_le (a b n : Nat) : a / n + b / n ≤ (a + b) / n := by
  rcases Nat.eq_zero_or_pos n with h | h
  · subst h; simp
  · rw [Nat.le_div_iff_mul_le h, Nat.add_mul]
    exact Nat.add_le_add (Nat.div_mul_le_self a n) (Nat.div_mul_le_self b n)

/-- Auxiliary: when the dimension is at least the grid size, consecutive block
boundaries are strictly increasing, so every block is non-empty. -/
lemma blockStart_lt {n total : Nat} (h1 : 0 < n) (h2 : n ≤ total) (i : Nat) :
    blockStart i total n < blockStart (i + 1) total n := by
  unfold blockStart
  have ht : 1 ≤ total / n := (Nat.one_le_div_iff h1).2 h2
  calc i * total / n < i * total / n + total / n := by omega
    _ ≤ (i * total + total) / n := div_add_div_le _ _ _
    _ = (i + 1) * total / n := by rw [Nat.succ_mul]

/-- Auxiliary: block boundaries stay within the dimension. -/
lemma blockStart_le_total {n : Nat} (total : Nat) (h : 0 < n) {i : Nat}
    (hi : i ≤ n) : blockStart i total n ≤ total := by
  unfold blockStart
  calc i * total / n ≤ n * total / n :=
        Nat.div_le_div_right (Nat.mul_le_mul_right total hi)
    _ = total := Nat.mul_div_cancel_left total h

/-- C3: when width (or height) is not an exact multiple of the grid size,
block `i` spans columns `floor(i*W/N)` to `floor((i+1)*W/N)` (exclusive), and
every pixel coordinate below the dimension falls in exactly one block: full
coverage, no gaps, no overlaps. -/
theorem block_partition_unique (n total x : Nat) (hn : 0 < n) (hnt : n ≤ total)
    (hx : x < total) :
    ∃! i, i < n ∧ blockStart i total n ≤ x ∧ x < blockStart (i + 1) total n := by
  have hW : 0 < total := Nat.lt_of_lt_of_le hn hnt
  have key : ∀ i, (blockStart i total n ≤ x ∧ x < blockStart (i + 1) total n) ↔
      (i * total < (x + 1) * n ∧ (x + 1) * n ≤ (i + 1) * total) := by
    intro i
    unfold blockStart
    constructor
    · rintro ⟨h1, h2⟩
      exact ⟨(Nat.div_lt_iff_lt_mul hn).1 (Nat.lt_succ_of_le h1),
        (Nat.le_div_iff_mul_le hn).1 (Nat.succ_le_of_lt h2)⟩
    · rintro ⟨h1, h2⟩
      exact ⟨Nat.le_of_lt_succ ((Nat.div_lt_iff_lt_mul hn).2 h1),
        Nat.lt_of_succ_le ((Nat.le_div_iff_mul_le hn).2 h2)⟩
  set m := (x + 1) * n with hm
  have hm1 : 1 ≤ m := by rw [hm]; exact Nat.mul_pos (by omega) hn
  have hmn : m ≤ n * total := by
    rw [hm, Nat.mul_comm n total]
    exact Nat.mul_le_mul_right n (by omega)
  refine ⟨(m - 1) / total, ⟨?_, (key _).2 ⟨?_, ?_⟩⟩, ?_⟩
  · exact (Nat.div_lt_iff_lt_mul hW).2 (by omega)
  · exact Nat.lt_of_le_of_lt (Nat.div_mul_le_self _ _) (Nat.sub_lt (by omega) (by omega))
  · have hdm := Nat.div_add_mod (m - 1) total
    have hmod : (m - 1) % total < total := Nat.mod_lt _ hW
    rw [Nat.succ_mul]
    rw [Nat.mul_comm total ((m - 1) / total)] at hdm
    omega
  · rintro j ⟨hj, hbounds⟩
    obtain ⟨hj1, hj2⟩ := (key j).1 hbounds
    have hle1 : j ≤ (m - 1) / total := (Nat.le_div_iff_mul_le hW).2 (by omega)
    have hle2 : (m - 1) / total ≤ j := by
      have := (Nat.div_lt_iff_lt_mul hW).2 (show m - 1 < (j + 1) * total by omega)
      omega
    omega

/-- Witness for C3: at `N = 16`, `W = 32`, the pixel column 5 lies in exactly
one block. -/
theorem block_partition_unique_witness :
    (0 : Nat) < 16 ∧ (16 : Nat) ≤ 32 ∧ (5 : Nat) < 32 ∧
    ∃! i, i < 16 ∧ blockStart i 32 16 ≤ 5 ∧ 5 < blockStart (i + 1) 32 16 :=
  ⟨by decide, by decide, by decide,
    block_partition_unique 16 32 5 (by decide) (by decide) (by decide)⟩

/-- Auxiliary: in a uniform buffer every in-range pixel is the fill color. -/
lemma pixelAt_uniform {w h : Nat} (c : Pixel) {x y : Nat} (hx : x < w)
    (hy : y < h) : pixelAt (uniformBuffer w h c) x y = c := by
  have hidx : y * w + x < w * h := by
    calc y * w + x < (y + 1) * w := by rw [Nat.succ_mul]; omega
      _ ≤ h * w := Nat.mul_le_mul_right w hy
      _ = w * h := Nat.mul_comm h w
  show (List.replicate (w * h) c).getD (y * w + x) ⟨0, 0, 0, 0⟩ = c
  rw [List.getD_eq_getElem _ _ (by simpa using hidx), List.getElem_replicate]

/-- Auxiliary: the sum of a constant over an index range. -/
lemma sum_map_const_range (m : Nat) (q : ℚ) :
    ((List.range m).map (fun _ => q)).sum = (m : ℚ) * q := by
  induction m with
  | zero => simp
  | succ k ih =>
    rw [List.range_succ, List.map_append, List.sum_append, ih]
    push_cast
    simp
    ring

/-- Auxiliary: every block of a uniform buffer has intensity exactly the fill
color's luminance. -/
lemma blockIntensity_uniform {w h n : Nat} (c : Pixel) (h1 : 0 < n)
    (hw : n ≤ w) (hh : n ≤ h) {row col : Nat} (hrow : row < n) (hcol : col < n) :
    blockIntensity (uniformBuffer w h c) n row col = lum c := by
  have hW : (uniformBuffer w h c).width = w := rfl
  have hH : (uniformBuffer w h c).height = h := rfl
  simp only [blockIntensity, hW, hH]
  have hx01 : blockStart col w n < blockStart (col + 1) w n := blockStart_lt h1 hw col
  have hy01 : blockStart row h n < blockStart (row + 1) h n := blockStart_lt h1 hh row
  have hx1w : blockStart (col + 1) w n ≤ w := blockStart_le_total w h1 (by omega)
  have hy1h : blockStart (row + 1) h n ≤ h := blockStart_le_total h h1 (by omega)
  have hcong2 : ∀ dy ∈ List.range (blockStart (row + 1) h n - blockStart row h n),
      ((List.range (blockStart (col + 1) w n - blockStart col w n)).map (fun dx =>
        lum (pixelAt (uniformBuffer w h c) (blockStart col w n + dx)
          (blockStart row h n + dy)))).sum
        = ((blockStart (col + 1) w n - blockStart col w n : Nat) : ℚ) * lum c := by
    intro dy hdy
    rw [List.mem_range] at hdy
    have hcong : ∀ dx ∈ List.range (blockStart (col + 1) w n - blockStart col w n),
        lum (pixelAt (uniformBuffer w h c) (blockStart col w n + dx)
          (blockStart row h n + dy)) = lum c := by
      intro dx hdx
      rw [List.mem_range] at hdx
      rw [pixelAt_uniform c (by omega) (by omega)]
    rw [List.map_congr_left hcong, sum_map_const_range]
  rw [List.map_congr_left hcong2, sum_map_const_range]
  have hxa : ((blockStart (col + 1) w n - blockStart col w n : Nat) : ℚ) ≠ 0 := by
    rw [Nat.cast_ne_zero]; omega
  have hya : ((blockStart (row + 1) h n - blockStart row h n : Nat) : ℚ) ≠ 0 := by
    rw [Nat.cast_ne_zero]; omega
  rw [Nat.cast_mul, div_eq_iff (mul_ne_zero hxa hya)]
  ring

/-- Auxiliary: all block intensities of a uniform buffer are equal. -/
lemma blockIntensities_uniform {w h n : Nat} (c : Pixel) (h1 : 0 < n)
    (hw : n ≤ w) (hh : n ≤ h) :
    blockIntensities (uniformBuffer w h c) n = List.replicate (n * n) (lum c) := by
  unfold blockIntensities
  rw [List.eq_replicate_iff]
  refine ⟨by simp, ?_⟩
  intro q hq
  rw [List.mem_map] at hq
  obtain ⟨k, hk, rfl⟩ := hq
  rw [List.mem_range] at hk
  exact blockIntensity_uniform c h1 hw hh ((Nat.div_lt_iff_lt_mul h1).2 hk)
    (Nat.mod_lt _ h1)

/-- Auxiliary: the median of a constant list is that constant. -/
lemma median_replicate {m : Nat} (hm : 0 < m) (v : ℚ) :
    median (List.replicate m v) = v := by
  have hperm := List.perm_insertionSort (· ≤ ·) (List.replicate m v)
  have hsorted : (List.replicate m v).insertionSort (· ≤ ·) =
      List.replicate m v := by
    rw [List.eq_replicate_iff]
    exact ⟨by rw [hperm.length_eq, List.length_replicate],
      fun b hb => List.eq_of_mem_replicate (hperm.mem_iff.1 hb)⟩
  have hget : ∀ i, i < m → (List.replicate m v).getD i 0 = v := by
    intro i hi
    rw [List.getD_eq_getElem _ _ (by simpa using hi), List.getElem_replicate]
  simp only [median, hsorted, List.length_replicate]
  rw [if_neg (by omega)]
  by_cases hpar : m % 2 = 1
  · rw [if_pos hpar, hget _ (by omega)]
  · rw [if_neg hpar, hget _ (by omega), hget _ (by omega)]
    exact add_self_div_two v

/-- Auxiliary: the fingerprint bits of a uniform buffer are all zero (every
block ties with the median, and ties resolve to 0). -/
lemma fingerprintBits_uniform {w h n : Nat} (c : Pixel) (h1 : 0 < n)
    (hw : n ≤ w) (hh : n ≤ h) :
    fingerprintBits (uniformBuffer w h c) n = List.replicate (n * n) false := by
  simp only [fingerprintBits]
  rw [blockIntensities_uniform c h1 hw hh,
    median_replicate (Nat.mul_pos h1 h1) (lum c), List.map_replicate]
  rw [decide_eq_false (lt_irrefl (lum c))]

/-- Auxiliary: generation on a uniform buffer succeeds and produces the
all-zero bit string. -/
lemma generateFingerprint_uniform {w h n : Nat} (c : Pixel) (h2 : 2 ≤ n)
    (hw : n ≤ w) (hh : n ≤ h) :
    generateFingerprint (uniformBuffer w h c) n =
      Except.ok ⟨n, List.replicate (n * n) false⟩ := by
  have hW : (uniformBuffer w h c).width = w := rfl
  have hH : (uniformBuffer w h c).height = h := rfl
  have hne : (uniformBuffer w h c).data ≠ [] := by
    show List.replicate (w * h) c ≠ []
    intro hcontra
    have hwh : w * h = 0 := by simpa using congrArg List.length hcontra
    rcases Nat.mul_eq_zero.1 hwh with h0 | h0 <;> omega
  unfold generateFingerprint
  rw [if_neg (by push_neg; rw [hW, hH]; exact ⟨by omega, by omega, hne⟩)]
  rw [if_neg (by push_neg; rw [hW, hH]; exact ⟨by omega, hw, hh⟩)]
  rw [fingerprintBits_uniform c (by omega) hw hh]

/-- Auxiliary: inversion of a successful generation. -/
lemma generateFingerprint_ok {buf : PixelBuffer} {n : Nat} {f : Fingerprint}
    (h : generateFingerprint buf n = .ok f) :
    f = ⟨n, fingerprintBits buf n⟩ := by
  unfold generateFingerprint at h
  split at h
  · exact absurd h (by simp)
  · split at h
    · exact absurd h (by simp)
    · injection h with h'
      rw [← h']

/-- Auxiliary: the fingerprint always has one bit per grid cell. -/
lemma fingerprintBits_length (buf : PixelBuffer) (n : Nat) :
    (fingerprintBits buf n).length = n * n := by
  simp only [fingerprintBits, blockIntensities]
  rw [List.length_map, List.length_map, List.length_range]

/-- Auxiliary: an all-zero bit string of length `4*k` renders as `k` zero
characters. -/
lemma hexCharsOfBits_replicate_false (k : Nat) :
    hexCharsOfBits (List.replicate (4 * k) false) = List.replicate k '0' := by
  induction k with
  | zero => rfl
  | succ j ih =>
    have h4 : 4 * (j + 1) = 4 * j + 1 + 1 + 1 + 1 := by omega
    rw [h4, List.replicate_succ, List.replicate_succ, List.replicate_succ,
      List.replicate_succ]
    show hexDigit (nibbleVal false false false false) ::
      hexCharsOfBits (List.replicate (4 * j) false) = List.replicate (j + 1) '0'
    rw [ih, List.replicate_succ]
    rfl

/-- Auxiliary: a bit string of length `4*k` renders as exactly `k` hex
characters. -/
lemma hexCharsOfBits_length : ∀ (k : Nat) (l : List Bool), l.length = 4 * k →
    (hexCharsOfBits l).length = k := by
  intro k
  induction k with
  | zero =>
    intro l hl
    have h0 : l = [] := List.length_eq_zero.1 (by omega)
    subst h0
    rfl
  | succ j ih =>
    intro l hl
    rcases l with _ | ⟨b3, _ | ⟨b2, _ | ⟨b1, _ | ⟨b0, rest⟩⟩⟩⟩
    · simp only [List.length_nil] at hl; omega
    · simp only [List.length_cons, List.length_nil] at hl; omega
    · simp only [List.length_cons, List.length_nil] at hl; omega
    · simp only [List.length_cons, List.length_nil] at hl; omega
    · have hr : rest.length = 4 * j := by
        simp only [List.length_cons] at hl
        omega
      show (hexDigit (nibbleVal b3 b2 b1 b0) :: hexCharsOfBits rest).length = j + 1
      rw [List.length_cons, ih rest hr]

/-- Auxiliary: a nibble value is below 16. -/
lemma nibbleVal_lt (b3 b2 b1 b0 : Bool) : nibbleVal b3 b2 b1 b0 < 16 := by
  cases b3 <;> cases b2 <;> cases b1 <;> cases b0 <;> decide

/-- Auxiliary: every nibble renders as a lowercase hex digit character. -/
lemma hexDigit_mem {n : Nat} (h : n < 16) : hexDigit n ∈ hexDigits := by
  interval_cases n <;> decide

/-- Auxiliary: every character rendered from a bit string of length `4*k` is a
lowercase hex digit. -/
lemma hexCharsOfBits_subset : ∀ (k : Nat) (l : List Bool), l.length = 4 * k →
    ∀ ch ∈ hexCharsOfBits l, ch ∈ hexDigits := by
  intro k
  induction k with
  | zero =>
    intro l hl ch hch
    have h0 : l = [] := List.length_eq_zero.1 (by omega)
    subst h0
    rw [show hexCharsOfBits [] = [] from rfl] at hch
    exact absurd hch (List.not_mem_nil ch)
  | succ j ih =>
    intro l hl ch hch
    rcases l with _ | ⟨b3, _ | ⟨b2, _ | ⟨b1, _ | ⟨b0, rest⟩⟩⟩⟩
    · simp only [List.length_nil] at hl; omega
    · simp only [List.length_cons, List.length_nil] at hl; omega
    · simp only [List.length_cons, List.length_nil] at hl; omega
    · simp only [List.length_cons, List.length_nil] at hl; omega
    · have hr : rest.length = 4 * j := by
        simp only [List.length_cons] at hl
        omega
      rw [show hexCharsOfBits (b3 :: b2 :: b1 :: b0 :: rest) =
        hexDigit (nibbleVal b3 b2 b1 b0) :: hexCharsOfBits rest from rfl] at hch
      rcases List.mem_cons.1 hch with hc | hc
      · rw [hc]
        exact hexDigit_mem (nibbleVal_lt b3 b2 b1 b0)
      · exact ih rest hr ch hc

/-- C6: whenever generation succeeds, the serialized fingerprint is a
lowercase hexadecimal string of exactly `ceil(N*N/4)` characters. -/
theorem fingerprintHex_spec (buf : PixelBuffer) (n : Nat) (f : Fingerprint)
    (h : generateFingerprint buf n = Except.ok f) :
    (fingerprintHex f).length = (n * n + 3) / 4 ∧
    ∀ ch ∈ (fingerprintHex f).data, ch ∈ hexDigits := by
  have hf := generateFingerprint_ok h
  subst hf
  have hb : (fingerprintBits buf n).length = n * n := fingerprintBits_length buf n
  have hlen : (List.replicate (4 * hexLength n - (fingerprintBits buf n).length)
      false ++ fingerprintBits buf n).length = 4 * hexLength n := by
    rw [List.length_append, List.length_replicate, hb]
    unfold hexLength
    omega
  constructor
  · show (hexCharsOfBits (List.replicate (4 * hexLength n -
      (fingerprintBits buf n).length) false ++ fingerprintBits buf n)).length
      = (n * n + 3) / 4
    rw [hexCharsOfBits_length (hexLength n) _ hlen]
    rfl
  · intro ch hch
    exact hexCharsOfBits_subset (hexLength n) _ hlen ch hch

/-- Witness for C6: a uniform 32x32 image at grid size 16 generates
successfully and its hex string has 64 characters, all hex digits. -/
theorem fingerprintHex_spec_witness :
    generateFingerprint (uniformBuffer 32 32 ⟨0, 0, 0, 0⟩) 16 =
      Except.ok ⟨16, List.replicate 256 false⟩ ∧
    (fingerprintHex ⟨16, List.replicate 256 false⟩).length = 64 ∧
    ∀ ch ∈ (fingerprintHex ⟨16, List.replicate 256 false⟩).data, ch ∈ hexDigits := by
  have hgen : generateFingerprint (uniformBuffer 32 32 ⟨0, 0, 0, 0⟩) 16 =
      Except.ok ⟨16, List.replicate 256 false⟩ :=
    @generateFingerprint_uniform 32 32 16 ⟨0, 0, 0, 0⟩ (by omega) (by omega)
      (by omega)
  have hmain := fingerprintHex_spec (uniformBuffer 32 32 ⟨0, 0, 0, 0⟩) 16
    ⟨16, List.replicate 256 false⟩ hgen
  exact ⟨hgen, hmain.1, hmain.2⟩

/-- C2: each fingerprint bit is set exactly when its block's mean intensity is
strictly greater than the median of all block intensities (ties resolve to 0);
hence a uniform-color 32x32 image at grid size 16 produces the all-zero
fingerprint of 64 hex characters. -/
theorem fingerprint_bit_median_rule :
    (∀ (buf : PixelBuffer) (n k : Nat), k < n * n →
      (fingerprintBits buf n).getD k false =
        decide (median (blockIntensities buf n) <
          (blockIntensities buf n).getD k 0)) ∧
    (∀ c : Pixel, ∃ f, generateFingerprint (uniformBuffer 32 32 c) 16 =
        Except.ok f ∧
      fingerprintHex f = String.mk (List.replicate 64 '0')) := by
  constructor
  · intro buf n k hk
    have hlen : (blockIntensities buf n).length = n * n := by
      unfold blockIntensities
      rw [List.length_map, List.length_range]
    have hk1 : k < (blockIntensities buf n).length := by omega
    simp only [fingerprintBits]
    rw [List.getD_eq_getElem _ _ (by rw [List.length_map]; omega),
      List.getElem_map, List.getD_eq_getElem _ _ hk1]
  · intro c
    refine ⟨⟨16, List.replicate 256 false⟩, ?_, ?_⟩
    · exact @generateFingerprint_uniform 32 32 16 c (by omega) (by omega) (by omega)
    · show String.mk (hexCharsOfBits (List.replicate (4 * hexLength 16 -
        (List.replicate 256 false).length) false ++ List.replicate 256 false))
        = String.mk (List.replicate 64 '0')
      rw [List.length_replicate, show 4 * hexLength 16 - 256 = 0 from by decide,
        List.replicate_zero, List.nil_append,
        show (256 : Nat) = 4 * 64 from by norm_num, hexCharsOfBits_replicate_false]

/-- Witness for C2 at a concrete block index and buffer. -/
theorem fingerprint_bit_median_rule_witness :
    (0 : Nat) < 16 * 16 ∧
    (fingerprintBits (uniformBuffer 32 32 ⟨0, 0, 0, 0⟩) 16).getD 0 false =
      decide (median (blockIntensities (uniformBuffer 32 32 ⟨0, 0, 0, 0⟩) 16) <
        (blockIntensities (uniformBuffer 32 32 ⟨0, 0, 0, 0⟩) 16).getD 0 0) :=
  ⟨by decide, fingerprint_bit_median_rule.1 (uniformBuffer 32 32 ⟨0, 0, 0, 0⟩)
    16 0 (by decide)⟩

/-- C9: comparing two fingerprints generated with different grid dimensions
(8 versus 16) fails with `IncompatibleFingerprintError` rather than returning
any distance or similarity value. -/
theorem compare_grid_mismatch (p q : PixelBuffer) (a b : Fingerprint) (t : ℚ)
    (hp : generateFingerprint p 8 = Except.ok a)
    (hq : generateFingerprint q 16 = Except.ok b) :
    Fingerprint.compare a b t = Except.error .incompatibleFingerprint := by
  have ha := generateFingerprint_gridSize hp
  have hb := generateFingerprint_gridSize hq
  unfold Fingerprint.compare
  rw [if_neg (by rw [ha, hb]; omega)]

/-- Witness for C9: fingerprints of uniform 8x8 and 16x16 images generated
with grid sizes 8 and 16 fail to compare. -/
theorem compare_grid_mismatch_witness :
    Fingerprint.compare ⟨8, List.replicate 64 false⟩
      ⟨16, List.replicate 256 false⟩ 0 = Except.error .incompatibleFingerprint :=
  compare_grid_mismatch (uniformBuffer 8 8 ⟨0, 0, 0, 0⟩)
    (uniformBuffer 16 16 ⟨0, 0, 0, 0⟩) ⟨8, List.replicate 64 false⟩
    ⟨16, List.replicate 256 false⟩ 0
    (@generateFingerprint_uniform 8 8 8 ⟨0, 0, 0, 0⟩ (by omega) (by omega) (by omega))
    (@generateFingerprint_uniform 16 16 16 ⟨0, 0, 0, 0⟩ (by omega) (by omega) (by omega))

/-- Auxiliary: replacing one element of a list by an element of equal
luminance leaves every looked-up luminance unchanged. -/
lemma lum_getD_set (l : List Pixel) :
    ∀ (k i : Nat) (p q : Pixel), lum p = lum (l.getD k q) →
    lum ((l.set k p).getD i q) = lum (l.getD i q) := by
  induction l with
  | nil => intro k i p q hp; rfl
  | cons x xs ih =>
    intro k i p q hp
    cases k with
    | zero =>
      cases i with
      | zero => exact hp
      | succ j => rfl
    | succ k' =>
      cases i with
      | zero => rfl
      | succ j => exact ih k' j p q hp

/-- Auxiliary: replacing a pixel's alpha channel changes no luminance. -/
lemma lum_pixelAt_setAlphaAt (buf : PixelBuffer) (k al x y : Nat) :
    lum (pixelAt (setAlphaAt buf k al) x y) = lum (pixelAt buf x y) := by
  exact lum_getD_set buf.data k (y * buf.width + x) _ _ rfl

/-- Auxiliary: block intensities ignore the alpha channel. -/
lemma blockIntensity_setAlphaAt (buf : PixelBuffer) (k al n row col : Nat) :
    blockIntensity (setAlphaAt buf k al) n row col =
      blockIntensity buf n row col := by
  have hW : (setAlphaAt buf k al).width = buf.width := rfl
  have hH : (setAlphaAt buf k al).height = buf.height := rfl
  simp only [blockIntensity, hW, hH]
  congr 1
  apply congrArg
  apply List.map_congr_left
  intro dy _
  apply congrArg
  apply List.map_congr_left
  intro dx _
  exact lum_pixelAt_setAlphaAt buf k al _ _

/-- C4: the fingerprint ignores the alpha channel: replacing any pixel's
alpha value while keeping its red, green and blue channels fixed yields an
identical generation result (success or failure alike). -/
theorem fingerprint_alpha_invariant (buf : PixelBuffer) (k al n : Nat) :
    generateFingerprint (setAlphaAt buf k al) n = generateFingerprint buf n := by
  have hint : blockIntensities (setAlphaAt buf k al) n = blockIntensities buf n := by
    unfold blockIntensities
    apply List.map_congr_left
    intro kk _
    exact blockIntensity_setAlphaAt buf k al n _ _
  have hbits : fingerprintBits (setAlphaAt buf k al) n = fingerprintBits buf n := by
    simp only [fingerprintBits, hint]
  have hW : (setAlphaAt buf k al).width = buf.width := rfl
  have hH : (setAlphaAt buf k al).height = buf.height := rfl
  have hD : ((setAlphaAt buf k al).data = []) ↔ (buf.data = []) := by
    show (buf.data.set k _ = []) ↔ _
    constructor
    · intro hc
      have hlen := congrArg List.length hc
      rw [List.length_set] at hlen
      exact List.length_eq_zero.1 (by simpa using hlen)
    · intro hc
      rw [hc]
      rfl
  unfold generateFingerprint
  rw [hW, hH, hbits]
  by_cases hd : buf.data = []
  · rw [if_pos (Or.inr (Or.inr (hD.2 hd))), if_pos (Or.inr (Or.inr hd))]
  · by_cases h0 : buf.width = 0 ∨ buf.height = 0
    · rcases h0 with h0 | h0
      · rw [if_pos (Or.inl h0), if_pos (Or.inl h0)]
      · rw [if_pos (Or.inr (Or.inl h0)), if_pos (Or.inr (Or.inl h0))]
    · push_neg at h0
      have hA : ¬(buf.width = 0 ∨ buf.height = 0 ∨
          (setAlphaAt buf k al).data = []) := by
        push_neg
        exact ⟨h0.1, h0.2, fun hc => hd (hD.1 hc)⟩
      have hB : ¬(buf.width = 0 ∨ buf.height = 0 ∨ buf.data = []) := by
        push_neg
        exact ⟨h0.1, h0.2, hd⟩
      rw [if_neg hA, if_neg hB]
